import Mathlib

/-!
Verification of the sync/diff engine of `gulp-oss-sync` (src/index.js).

The JavaScript source is shallowly embedded: JS objects used as maps
(`_oldCache`, `_newCache`, header bags) become association lists with
insertion-order semantics; the through-stream's per-file callback becomes
`processFile`; the `finish` handler becomes `onFinish`; remote I/O
(`client.put`, `client.deleteMulti`), cache persistence and cache-file
removal become an explicit effect trace.  External collaborators (the md5
digest, the mime database, success/failure of the remote `put`) are
parameters of the embedding.
-/

namespace GulpOssSync

/-- JS header values: strings, numbers, or `null` (as produced when the mime
lookup fails). -/
inductive HVal where
  | str (s : String)
  | num (n : Nat)
  | null
deriving DecidableEq, Repr

/-- A JS object used as a map, in property insertion order. -/
abbrev JsObj (α : Type) := List (String × α)

/-- Header bag: `file.oss.headers` and `controls.headers`. -/
abbrev Headers := JsObj HVal

/-- A manifest maps normalized relative paths to quoted fingerprints.
Models `_oldCache` / `_newCache`. -/
abbrev Manifest := JsObj String

/-- `obj.hasOwnProperty(k)` / truthiness of `obj[k]` presence. -/
def hasKey {α : Type} (m : JsObj α) (k : String) : Bool :=
  m.any (fun p => p.1 = k)

/-- `obj[k]`: `some v` when the property is present, `none` when absent. -/
def getKey {α : Type} (m : JsObj α) (k : String) : Option α :=
  (m.find? (fun p => p.1 = k)).map (fun p => p.2)

/-- `obj[k] = v`: JS property write.  An existing key keeps its position and
gets the new value; a new key is appended. -/
def objInsert {α : Type} (m : JsObj α) (k : String) (v : α) : JsObj α :=
  if hasKey m k then m.map (fun p => if p.1 = k then (k, v) else p)
  else m ++ [(k, v)]

/-- Writing a list of properties left to right (the copy loop of
`Object.assign` and of `JSON.parse` object construction). -/
def objInsertList {α : Type} (m : JsObj α) (ps : JsObj α) : JsObj α :=
  ps.foldl (fun acc p => objInsert acc p.1 p.2) m

/-- `Object.assign(\x7b\x7d, a, b)`: copy `a` into a fresh object, then `b`
over it. -/
def objAssign {α : Type} (a b : JsObj α) : JsObj α :=
  objInsertList (objInsertList [] a) b

/-! ### JSON serialization (`JSON.stringify`) of a manifest -/

/-- Lower-case hex digit for `n < 16`, as emitted by `JSON.stringify`'s
unicode escapes. -/
def hexDigitChar (n : Nat) : Char :=
  Char.ofNat (if n < 10 then 48 + n else 87 + n)

/-- The escape `JSON.stringify` applies to one character of a string:
`\"` and `\\` are escaped, control characters use the short escapes
`\b \t \n \f \r` or a `\u00xx` escape, every other character is literal. -/
def escapeChar (c : Char) : List Char :=
  if c = '"' then ['\\', '"']
  else if c = '\\' then ['\\', '\\']
  else if c.toNat < 32 then
    if c.toNat = 8 then ['\\', 'b']
    else if c.toNat = 9 then ['\\', 't']
    else if c.toNat = 10 then ['\\', 'n']
    else if c.toNat = 12 then ['\\', 'f']
    else if c.toNat = 13 then ['\\', 'r']
    else ['\\', 'u', '0', '0', hexDigitChar (c.toNat / 16), hexDigitChar (c.toNat % 16)]
  else [c]

/-- Escape a whole string body. -/
def escList : List Char → List Char
  | [] => []
  | c :: cs => escapeChar c ++ escList cs

/-- A JSON string literal: quote, escaped body, quote. -/
def quoteChars (cs : List Char) : List Char :=
  '"' :: (escList cs ++ ['"'])

/-- The member list of `JSON.stringify(obj)`: `"k":"v"` joined by commas. -/
def serMembers : Manifest → List Char
  | [] => []
  | [(k, v)] => quoteChars k.data ++ ':' :: quoteChars v.data
  | (k, v) :: rest => quoteChars k.data ++ ':' :: quoteChars v.data ++ ',' :: serMembers rest

/-- `JSON.stringify(cache)` for a flat string-to-string object, as written by
`saveCache` (src/index.js line 74). -/
def serializeManifest (m : Manifest) : String :=
  match m with
  | [] => "\x7b\x7d"
  | _ => String.mk ('{' :: (serMembers m ++ ['}']))

/-! ### JSON parsing (`JSON.parse`) of a manifest file -/

/-- Numeric value of a hex digit character (both cases accepted, as by
`JSON.parse`). -/
def hexVal (c : Char) : Option Nat :=
  if 48 ≤ c.toNat ∧ c.toNat ≤ 57 then some (c.toNat - 48)
  else if 97 ≤ c.toNat ∧ c.toNat ≤ 102 then some (c.toNat - 87)
  else if 65 ≤ c.toNat ∧ c.toNat ≤ 70 then some (c.toNat - 55)
  else none

/-- Single-character escapes accepted after a backslash in a JSON string. -/
def escCode (e : Char) : Option Char :=
  if e = '"' then some '"'
  else if e = '\\' then some '\\'
  else if e = '/' then some '/'
  else if e = 'b' then some (Char.ofNat 8)
  else if e = 't' then some (Char.ofNat 9)
  else if e = 'n' then some (Char.ofNat 10)
  else if e = 'f' then some (Char.ofNat 12)
  else if e = 'r' then some (Char.ofNat 13)
  else none

/-- Code point assembled from four hex digits. -/
def hex4 (a b c d : Nat) : Nat :=
  ((a * 16 + b) * 16 + c) * 16 + d

/-- Parse the body of a JSON string literal (after the opening quote),
returning the decoded characters and the rest of the input.  Every step
consumes at least one input character, so running it with fuel one above
the input length is exhaustive; the fuel only makes the recursion
structural. -/
def parseStrBody : Nat → List Char → Option (List Char × List Char)
  | 0, _ => none
  | _ + 1, [] => none
  | fuel + 1, c :: rest =>
    if c = '"' then some ([], rest)
    else if c = '\\' then
      match rest with
      | [] => none
      | e :: r2 =>
        if e = 'u' then
          match r2 with
          | h1 :: h2 :: h3 :: h4 :: r3 =>
            match hexVal h1, hexVal h2, hexVal h3, hexVal h4 with
            | some a, some b, some c2, some d =>
              if Nat.isValidChar (hex4 a b c2 d) then
                (parseStrBody fuel r3).map (fun pr => (Char.ofNat (hex4 a b c2 d) :: pr.1, pr.2))
              else none
            | _, _, _, _ => none
          | _ => none
        else
          match escCode e with
          | some ec => (parseStrBody fuel r2).map (fun pr => (ec :: pr.1, pr.2))
          | none => none
    else if c.toNat < 32 then none
    else (parseStrBody fuel rest).map (fun pr => (c :: pr.1, pr.2))

/-- Parse a JSON string literal including its opening quote. -/
def parseJString (cs : List Char) : Option (List Char × List Char) :=
  match cs with
  | '"' :: rest => parseStrBody (rest.length + 1) rest
  | _ => none

/-- Parse the members of a JSON object (`"k":"v"` pairs separated by commas,
terminated by `\x7d`), accumulating by JS property write so that a duplicate
key overwrites, as `JSON.parse` does. -/
def parseMembers : Nat → List Char → Manifest → Option (Manifest × List Char)
  | 0, _, _ => none
  | fuel + 1, cs, acc =>
    match parseJString cs with
    | none => none
    | some (k, r1) =>
      match r1 with
      | ':' :: r2 =>
        match parseJString r2 with
        | none => none
        | some (v, r3) =>
          let acc2 := objInsert acc (String.mk k) (String.mk v)
          match r3 with
          | ',' :: r4 => parseMembers fuel r4 acc2
          | '}' :: r4 => some (acc2, r4)
          | _ => none
      | _ => none

/-- `JSON.parse` of a character list, restricted to the grammar `saveCache`
writes: a flat object of string members, no surrounding whitespace. -/
def parseManifestChars (cs : List Char) : Option Manifest :=
  match cs with
  | '{' :: r =>
    if r = ['}'] then some []
    else
      match parseMembers r.length r [] with
      | some (m, []) => some m
      | _ => none
  | _ => none

/-- `JSON.parse` of the cache file's text; `none` models a thrown
`SyntaxError`. -/
def parseManifest (s : String) : Option Manifest :=
  parseManifestChars s.data

/-- The cache-loading fallback (src/index.js lines 152-156): the cache file's
contents when readable (`none` models an unreadable/absent file); a parse
failure falls back to the empty manifest. -/
def loadCache (d : Option String) : Manifest :=
  match d with
  | none => []
  | some s => (parseManifest s).getD []

/-! ### File records and configuration -/

/-- Vinyl file contents: `file.isNull()`, `file.isStream()`, `file.isBuffer()`. -/
inductive FContents where
  | null
  | stream
  | buffer (b : List Nat)
deriving DecidableEq, Repr

/-- The `file.oss` annotation set by `initFile`. -/
structure OssMeta where
  headers : Headers
  path : String
  state : Option String
  etag : Option String
  dateSet : Bool
deriving DecidableEq, Repr

/-- A vinyl file record as consumed by the stream. -/
structure VFile where
  relative : String
  path : String
  unzipPath : Option String
  contents : FContents
  oss : Option OssMeta
deriving DecidableEq, Repr

/-- `ossConfig.setting`. -/
structure Setting where
  dir : String
  force : Bool
  noClean : Bool
  quiet : Bool
  simulate : Bool
  fileName : Option (String → String)

/-- The `ossConfig` bundle: `connect.bucket`, `setting`, and
`controls.headers` (`none` when `config.controls` is undefined). -/
structure OssConfig where
  bucket : String
  setting : Setting
  controls : Option Headers

/-- Mutable publisher state: the two manifests, the upload counter, and the
current `config.controls.headers` (mutated on each upload). -/
structure PubState where
  newCache : Manifest
  oldCache : Manifest
  counter : Nat
  controls : Option Headers
deriving DecidableEq, Repr

/-- Observable actions of a run, in order. -/
inductive Effect where
  | unlinkCache
  | put (key : String) (bytes : List Nat) (headers : Headers)
  | saveCache (m : Manifest)
  | deleteMulti (keys : List String) (quiet : Bool)
  | emitError
  | report
deriving DecidableEq, Repr

/-- What the per-file callback does with its `cb`: drop the file (`cb()`),
emit a stream error, pass the file on (`cb(null, file)`), or fail the item
(`cb(err, file)`). -/
inductive FileOutcome where
  | dropped
  | streamError
  | passed (f : VFile)
  | failed (f : VFile)
deriving DecidableEq, Repr

/-! ### Per-file processing -/

/-- `file.relative.replace(backslash-regex, slash)`. -/
def replaceBS (s : String) : String :=
  String.mk (s.data.map (fun c => if c = '\\' then '/' else c))

/-- Whether the first list is an initial segment of the second. -/
def listStarts : List Char → List Char → Bool
  | [], _ => true
  | _ :: _, [] => false
  | p :: ps, c :: cs => if p = c then listStarts ps cs else false

/-- The `file.oss` annotation after `initFile` (src/index.js lines 63-71):
kept as-is when already present, otherwise fresh headers and the normalized,
transformed path. -/
def metaOf (transform : Option (String → String)) (f : VFile) : OssMeta :=
  match f.oss with
  | some m => m
  | none =>
    { headers := [],
      path := (transform.getD id) (replaceBS f.relative),
      state := none, etag := none, dateSet := false }

/-- The normalized path the diff engine keys on. -/
def normPathOf (transform : Option (String → String)) (f : VFile) : String :=
  (metaOf transform f).path

/-- The quoted fingerprint: a double-quoted md5 digest (src/index.js
line 233), with the digest function a parameter. -/
def etagOf (hash : List Nat → String) (b : List Nat) : String :=
  "\"" ++ hash b ++ "\""

/-- `charsets`: utf-8 for text-like mime types (the regex of src/index.js
line 20 is a prefix test). -/
def isTextLike (m : String) : Bool :=
  listStarts "text/".data m.data || listStarts "application/javascript".data m.data ||
    listStarts "application/json".data m.data

/-- `getContentType` (src/index.js lines 46-53), with the mime database a
parameter; `none` models the `null` mime lookup result flowing through. -/
def getContentType (mimeT : String → Option String) (f : VFile) : Option String :=
  let lookupPath :=
    match f.unzipPath with
    | some s => if s = "" then f.path else s
    | none => f.path
  match mimeT lookupPath with
  | some m => if isTextLike m then some (m ++ "; charset=utf-8") else some m
  | none => none

/-- The header value written for Content-Type (a `null` mime result is
stored as JS `null`). -/
def contentTypeHVal (mimeT : String → Option String) (f : VFile) : HVal :=
  match getContentType mimeT f with
  | some s => HVal.str s
  | none => HVal.null

/-- JS falsiness of a property read, as tested by
`!file.oss.headers[...]`. -/
def hFalsy (v : Option HVal) : Bool :=
  match v with
  | none => true
  | some HVal.null => true
  | some (HVal.str s) => s = ""
  | some (HVal.num n) => n = 0

/-- Fill in Content-Type / Content-Length when falsy (src/index.js lines
249-252). -/
def fillHeaders (mimeT : String → Option String) (f : VFile) (hdrs : Headers)
    (b : List Nat) : Headers :=
  let h1 :=
    if hFalsy (getKey hdrs "Content-Type") then
      objInsert hdrs "Content-Type" (contentTypeHVal mimeT f)
    else hdrs
  if hFalsy (getKey h1 "Content-Length") then
    objInsert h1 "Content-Length" (HVal.num b.length)
  else h1

/-- The buffered-file branch of the stream callback (src/index.js lines
229-266).  `putOk` tells whether the remote `put` for a given key and body
succeeds. -/
def processBuffer (cfg : OssConfig) (hash : List Nat → String)
    (mimeT : String → Option String) (putOk : String → List Nat → Bool)
    (st : PubState) (f : VFile) (b : List Nat) :
    PubState × List Effect × FileOutcome :=
  let meta := metaOf cfg.setting.fileName f
  let p := meta.path
  let etag := etagOf hash b
  let st1 := { st with newCache := objInsert st.newCache p etag }
  if getKey st.oldCache p = some etag then
    let f2 := { f with oss := some { meta with state := some "cache" } }
    (st1, [], FileOutcome.passed f2)
  else
    let hdrs := fillHeaders mimeT f meta.headers b
    let meta2 : OssMeta :=
      { headers := hdrs, path := meta.path, state := some "upload",
        etag := some etag, dateSet := true }
    let f2 := { f with oss := some meta2 }
    if cfg.setting.simulate then (st1, [], FileOutcome.passed f2)
    else
      let merged := objAssign (st.controls.getD []) hdrs
      let st2 := { st1 with controls := st.controls.map (fun _ => merged) }
      let key := cfg.setting.dir ++ "/" ++ p
      if putOk key b then
        let st3 := { st2 with counter := st2.counter + 1 }
        let effs :=
          Effect.put key b merged ::
            (if st3.counter % 10 = 0 then [Effect.saveCache st3.newCache] else [])
        (st3, effs, FileOutcome.passed f2)
      else
        (st2, [Effect.put key b merged], FileOutcome.failed f2)

/-- The whole stream callback (src/index.js lines 215-267): null contents
are answered with a bare `cb()`, streamed contents emit a plugin error,
buffers go through the diff engine. -/
def processFile (cfg : OssConfig) (hash : List Nat → String)
    (mimeT : String → Option String) (putOk : String → List Nat → Bool)
    (st : PubState) (f : VFile) : PubState × List Effect × FileOutcome :=
  match f.contents with
  | FContents.null => (st, [], FileOutcome.dropped)
  | FContents.stream => (st, [Effect.emitError], FileOutcome.streamError)
  | FContents.buffer b => processBuffer cfg hash mimeT putOk st f b

/-- Sequential processing of the stream's files (through2 feeds the next
file only after the previous callback fired). -/
def processFiles (cfg : OssConfig) (hash : List Nat → String)
    (mimeT : String → Option String) (putOk : String → List Nat → Bool)
    (st : PubState) : List VFile → PubState × List Effect × List FileOutcome
  | [] => (st, [], [])
  | f :: fs =>
    let r := processFile cfg hash mimeT putOk st f
    let rest := processFiles cfg hash mimeT putOk r.1 fs
    (rest.1, r.2.1 ++ rest.2.1, r.2.2 :: rest.2.2)

/-! ### Completion and construction -/

/-- The delete candidates: old-manifest keys absent from the new manifest
(src/index.js lines 200-203). -/
def delPaths (st : PubState) : List String :=
  (st.oldCache.map (fun p => p.1)).filter (fun p => !hasKey st.newCache p)

/-- The `finish` handler (src/index.js lines 196-213): persist the new
cache, then unless `noClean`, delete the vanished keys (only when there are
any) and report. -/
def onFinish (cfg : OssConfig) (st : PubState) : List Effect :=
  Effect.saveCache st.newCache ::
    (if cfg.setting.noClean then []
     else
       let objs := (delPaths st).map (fun p => cfg.setting.dir ++ "/" ++ p)
       (if objs.length > 0 then [Effect.deleteMulti objs cfg.setting.quiet] else [])
         ++ [Effect.report])

/-- The `Publisher` constructor (src/index.js lines 129-158): fail on a
missing bucket; under `force` remove the cache file and start from an empty
old manifest; otherwise load the cache file with the silent fallback.
`cacheData` is the current contents of the cache file. -/
def mkPublisher (cfg : OssConfig) (cacheData : Option String) :
    Option (PubState × List Effect) :=
  if cfg.bucket = "" then none
  else if cfg.setting.force then
    some ({ newCache := [], oldCache := [], counter := 0, controls := cfg.controls },
          [Effect.unlinkCache])
  else
    some ({ newCache := [], oldCache := loadCache cacheData, counter := 0,
            controls := cfg.controls }, [])

/-- One complete sync run: construct, process every file, finish.  Returns
the final state, the ordered effect trace, and the per-file outcomes. -/
def runSync (cfg : OssConfig) (hash : List Nat → String)
    (mimeT : String → Option String) (putOk : String → List Nat → Bool)
    (cacheData : Option String) (files : List VFile) :
    Option (PubState × List Effect × List FileOutcome) :=
  (mkPublisher cfg cacheData).map (fun ini =>
    let r := processFiles cfg hash mimeT putOk ini.1 files
    (r.1, ini.2 ++ r.2.1 ++ onFinish cfg r.1, r.2.2))

/-- Whether an effect is a remote `put` call. -/
def isPut : Effect → Bool
  | Effect.put _ _ _ => true
  | _ => false

/-- Number of `put` calls in a trace. -/
def putCount (effs : List Effect) : Nat :=
  (effs.filter isPut).length

/-- Number of buffered files in a stream. -/
def bufCount (files : List VFile) : Nat :=
  (files.filter (fun f =>
    match f.contents with
    | FContents.buffer _ => true
    | _ => false)).length

/-! ### Concrete fixtures used to instantiate the theorems -/

/-- A plain setting: no force, cleaning on, no simulation. -/
def wSetting : Setting :=
  { dir := "root", force := false, noClean := false, quiet := true,
    simulate := false, fileName := none }

/-- A plain configuration. -/
def wCfg : OssConfig :=
  { bucket := "bk", setting := wSetting, controls := some [] }

/-- Force mode, no simulation. -/
def wCfgForce : OssConfig :=
  { wCfg with setting := { wSetting with force := true } }

/-- Force mode combined with simulate mode. -/
def wCfgFS : OssConfig :=
  { wCfg with setting := { wSetting with force := true, simulate := true } }

/-- A concrete digest function standing in for md5. -/
def wHash : List Nat → String := fun b => "h" ++ toString b.length

/-- A concrete mime database. -/
def wMime : String → Option String := fun _ => some "text/plain"

/-- A remote `put` that always succeeds. -/
def wPutOk : String → List Nat → Bool := fun _ _ => true

/-- A remote `put` that always fails. -/
def wPutFail : String → List Nat → Bool := fun _ _ => false

/-- A one-byte buffered file. -/
def wFileA : VFile :=
  { relative := "a.png", path := "a.png", unzipPath := none,
    contents := FContents.buffer [1], oss := none }

/-- A file with no contents. -/
def wFileNull : VFile :=
  { relative := "n.png", path := "n.png", unzipPath := none,
    contents := FContents.null, oss := none }

/-- Publisher state with an empty old manifest. -/
def wStEmpty : PubState :=
  { newCache := [], oldCache := [], counter := 0, controls := some [] }

/-- Publisher state whose old manifest already fingerprints `a.png`. -/
def wStA : PubState :=
  { wStEmpty with oldCache := [("a.png", "\"h1\"")] }

/-- The result of a concrete force-mode run (used to instantiate C5). -/
def wRunForceRes : PubState × List Effect × List FileOutcome :=
  (runSync wCfgForce wHash wMime wPutOk none [wFileA]).getD ⟨⟨[], [], 0, none⟩, [], []⟩

/-- The result of a concrete plain run (used to instantiate C8). -/
def wRunPlainRes : PubState × List Effect × List FileOutcome :=
  (runSync wCfg wHash wMime wPutOk none [wFileA]).getD ⟨⟨[], [], 0, none⟩, [], []⟩

/-! ## Theorems -/

/-! ### JS-object lemmas -/

theorem hasKey_nil {α : Type} (k : String) : hasKey ([] : JsObj α) k = false := rfl

theorem hasKey_cons {α : Type} (a : String) (v : α) (m : JsObj α) (k : String) :
    hasKey ((a, v) :: m) k = (decide (a = k) || hasKey m k) := by
  simp [hasKey]

theorem getKey_nil {α : Type} (k : String) : getKey ([] : JsObj α) k = none := rfl

theorem getKey_cons {α : Type} (a : String) (v : α) (m : JsObj α) (k : String) :
    getKey ((a, v) :: m) k = if a = k then some v else getKey m k := by
  by_cases h : a = k <;> simp [getKey, List.find?_cons, h]

theorem getKey_map_update {α : Type} (m : JsObj α) (k : String) (v : α)
    (h : hasKey m k = true) :
    getKey (m.map (fun p => if p.1 = k then (k, v) else p)) k = some v := by
  induction m with
  | nil => simp [hasKey] at h
  | cons p r ih =>
    obtain ⟨a, w⟩ := p
    by_cases ha : a = k
    · simp [ha, getKey_cons]
    · have hr : hasKey r k = true := by
        simp [hasKey_cons, ha] at h
        simpa [hasKey] using h
      simpa [ha, getKey_cons] using ih hr

theorem getKey_append_new {α : Type} (m : JsObj α) (k : String) (v : α)
    (h : hasKey m k = false) :
    getKey (m ++ [(k, v)]) k = some v := by
  induction m with
  | nil => simp [getKey_cons]
  | cons p r ih =>
    obtain ⟨a, w⟩ := p
    have ha : a ≠ k := by
      intro hak
      simp [hasKey_cons, hak] at h
    have hr : hasKey r k = false := by
      simp [hasKey_cons, ha] at h
      simpa [hasKey] using h
    simpa [getKey_cons, ha] using ih hr

theorem getKey_objInsert_self {α : Type} (m : JsObj α) (k : String) (v : α) :
    getKey (objInsert m k v) k = some v := by
  by_cases h : hasKey m k = true
  · simpa [objInsert, h] using getKey_map_update m k v h
  · have h' : hasKey m k = false := by
      cases hh : hasKey m k
      · rfl
      · exact absurd hh h
    simpa [objInsert, h'] using getKey_append_new m k v h'

theorem fillHeaders_nil (mimeT : String → Option String) (f : VFile) (b : List Nat) :
    fillHeaders mimeT f [] b =
      [("Content-Type", contentTypeHVal mimeT f),
       ("Content-Length", HVal.num b.length)] := by
  have hne : ("Content-Type" : String) ≠ "Content-Length" := by decide
  simp [fillHeaders, hFalsy, getKey_nil, getKey_cons, objInsert, hasKey, hne]

theorem processBuffer_put_headers
    (cfg : OssConfig) (hash : List Nat → String) (mimeT : String → Option String)
    (putOk : String → List Nat → Bool) (st : PubState) (f : VFile) (b : List Nat)
    (hdiff : ¬ getKey st.oldCache (metaOf cfg.setting.fileName f).path = some (etagOf hash b))
    (hsim : cfg.setting.simulate = false)
    (k2 : String) (b2 : List Nat) (h2 : Headers)
    (hmem : Effect.put k2 b2 h2 ∈ (processBuffer cfg hash mimeT putOk st f b).2.1) :
    h2 = objAssign (st.controls.getD [])
      (fillHeaders mimeT f (metaOf cfg.setting.fileName f).headers b) := by
  by_cases hok : putOk (cfg.setting.dir ++ "/" ++ (metaOf cfg.setting.fileName f).path) b
  · simp [processBuffer, hdiff, hsim, hok, List.mem_cons] at hmem
    exact hmem.2.2
  · simp [processBuffer, hdiff, hsim, hok] at hmem
    exact hmem.2.2

/-! ### Claim C1: unchanged files are skipped and keep their manifest entry -/

/-- Claim C1: for a buffered file whose fresh fingerprint equals the old
manifest's entry at its normalized path, with force off, processing emits no
`put` effect (indeed no effect at all) and the new manifest's entry at that
path equals the old manifest's entry. -/
theorem claim_C1_unchanged_skips_put
    (cfg : OssConfig) (hash : List Nat → String) (mimeT : String → Option String)
    (putOk : String → List Nat → Bool) (st : PubState) (f : VFile) (b : List Nat)
    (hb : f.contents = FContents.buffer b)
    (hforce : cfg.setting.force = false)
    (hsame : getKey st.oldCache (normPathOf cfg.setting.fileName f) = some (etagOf hash b)) :
    (processFile cfg hash mimeT putOk st f).2.1.filter isPut = [] ∧
    getKey (processFile cfg hash mimeT putOk st f).1.newCache
        (normPathOf cfg.setting.fileName f)
      = getKey st.oldCache (normPathOf cfg.setting.fileName f) := by
  have hsame' : getKey st.oldCache (metaOf cfg.setting.fileName f).path
      = some (etagOf hash b) := hsame
  constructor
  · simp [processFile, hb, processBuffer, hsame']
  · simp [processFile, hb, processBuffer, hsame', normPathOf,
      getKey_objInsert_self, hsame]

/-- Witness for C1 at a concrete unchanged file. -/
theorem claim_C1_unchanged_skips_put_witness :
    (wFileA.contents = FContents.buffer [1] ∧ wCfg.setting.force = false ∧
      getKey wStA.oldCache (normPathOf wCfg.setting.fileName wFileA)
        = some (etagOf wHash [1])) ∧
    ((processFile wCfg wHash wMime wPutOk wStA wFileA).2.1.filter isPut = [] ∧
      getKey (processFile wCfg wHash wMime wPutOk wStA wFileA).1.newCache
          (normPathOf wCfg.setting.fileName wFileA)
        = getKey wStA.oldCache (normPathOf wCfg.setting.fileName wFileA)) :=
  ⟨⟨rfl, rfl, by decide⟩,
    claim_C1_unchanged_skips_put wCfg wHash wMime wPutOk wStA wFileA [1]
      rfl rfl (by decide)⟩

/-! ### Claim C2: changed or new files upload exactly once -/

/-- Claim C2: for a buffered file absent from the old manifest or carrying a
different fingerprint, with simulate off, processing emits exactly one `put`
effect, keyed `dir + "/" + normalizedPath` with the file's bytes, and the new
manifest's entry at that path becomes the fresh fingerprint. -/
theorem claim_C2_changed_uploads_once
    (cfg : OssConfig) (hash : List Nat → String) (mimeT : String → Option String)
    (putOk : String → List Nat → Bool) (st : PubState) (f : VFile) (b : List Nat)
    (hb : f.contents = FContents.buffer b)
    (hsim : cfg.setting.simulate = false)
    (hdiff : getKey st.oldCache (normPathOf cfg.setting.fileName f) ≠ some (etagOf hash b)) :
    (∃ hdrs,
      (processFile cfg hash mimeT putOk st f).2.1.filter isPut =
        [Effect.put (cfg.setting.dir ++ "/" ++ normPathOf cfg.setting.fileName f) b hdrs]) ∧
    getKey (processFile cfg hash mimeT putOk st f).1.newCache
        (normPathOf cfg.setting.fileName f)
      = some (etagOf hash b) := by
  have hdiff' : ¬ getKey st.oldCache (metaOf cfg.setting.fileName f).path
      = some (etagOf hash b) := hdiff
  constructor
  · refine ⟨objAssign (st.controls.getD []) (fillHeaders mimeT f (metaOf cfg.setting.fileName f).headers b), ?_⟩
    by_cases hok : putOk (cfg.setting.dir ++ "/" ++ (metaOf cfg.setting.fileName f).path) b
    · simp only [processFile, hb, processBuffer, hdiff', if_false, hsim,
        Bool.false_eq_true, if_neg, ite_false, hok, ite_true, if_pos]
      split <;> simp [isPut, normPathOf]
    · simp [processFile, hb, processBuffer, hdiff', hsim, hok, isPut, normPathOf]
  · by_cases hok : putOk (cfg.setting.dir ++ "/" ++ (metaOf cfg.setting.fileName f).path) b <;>
      simp [processFile, hb, processBuffer, hdiff', hsim, hok, normPathOf,
        getKey_objInsert_self]

/-- Witness for C2 at a concrete new file over an empty old manifest. -/
theorem claim_C2_changed_uploads_once_witness :
    (wFileA.contents = FContents.buffer [1] ∧ wCfg.setting.simulate = false ∧
      getKey wStEmpty.oldCache (normPathOf wCfg.setting.fileName wFileA)
        ≠ some (etagOf wHash [1])) ∧
    ((∃ hdrs,
      (processFile wCfg wHash wMime wPutOk wStEmpty wFileA).2.1.filter isPut =
        [Effect.put (wCfg.setting.dir ++ "/" ++ normPathOf wCfg.setting.fileName wFileA) [1] hdrs]) ∧
    getKey (processFile wCfg wHash wMime wPutOk wStEmpty wFileA).1.newCache
        (normPathOf wCfg.setting.fileName wFileA)
      = some (etagOf wHash [1])) :=
  ⟨⟨rfl, rfl, by decide⟩,
    claim_C2_changed_uploads_once wCfg wHash wMime wPutOk wStEmpty wFileA [1]
      rfl rfl (by decide)⟩

/-! ### Claim C6 (corrected): null-content files are dropped, not forwarded -/

/-- Counterexample to claim C6: at a concrete file with no contents the
stream callback answers `cb()` with no file, so the outcome is a drop — the
file does not appear downstream, unchanged or otherwise. -/
theorem claim_C6_counterexample :
    (processFile wCfg wHash wMime wPutOk wStEmpty wFileNull).2.2 = FileOutcome.dropped ∧
    (processFile wCfg wHash wMime wPutOk wStEmpty wFileNull).2.2
      ≠ FileOutcome.passed wFileNull := by
  decide

/-- Claim C6 as amended: a file with no contents causes no manifest
mutation and no remote call, and is dropped from the stream (`cb()` is
called with no output file) rather than passed through. -/
theorem claim_C6_amended_null_dropped
    (cfg : OssConfig) (hash : List Nat → String) (mimeT : String → Option String)
    (putOk : String → List Nat → Bool) (st : PubState) (f : VFile)
    (h : f.contents = FContents.null) :
    processFile cfg hash mimeT putOk st f = (st, [], FileOutcome.dropped) := by
  simp [processFile, h]

/-- Witness for the amended C6 at a concrete null file. -/
theorem claim_C6_amended_null_dropped_witness :
    (wFileNull.contents = FContents.null) ∧
    processFile wCfg wHash wMime wPutOk wStEmpty wFileNull
      = (wStEmpty, [], FileOutcome.dropped) :=
  ⟨rfl, claim_C6_amended_null_dropped wCfg wHash wMime wPutOk wStEmpty wFileNull rfl⟩

/-! ### Claim C4: optimistic manifest write, per-item failure, stream goes on -/

/-- Claim C4: on the upload path the new-manifest entry is written before
the `put` resolves, so when the `put` fails the item fails (`cb(err, file)`)
while the entry is already present, and the remaining files are still
processed from the post-failure state. -/
theorem claim_C4_optimistic_write_survives_put_failure
    (cfg : OssConfig) (hash : List Nat → String) (mimeT : String → Option String)
    (putOk : String → List Nat → Bool) (st : PubState) (f : VFile)
    (fs : List VFile) (b : List Nat)
    (hb : f.contents = FContents.buffer b)
    (hsim : cfg.setting.simulate = false)
    (hdiff : getKey st.oldCache (normPathOf cfg.setting.fileName f) ≠ some (etagOf hash b))
    (hfail : putOk (cfg.setting.dir ++ "/" ++ normPathOf cfg.setting.fileName f) b = false) :
    getKey (processFile cfg hash mimeT putOk st f).1.newCache
        (normPathOf cfg.setting.fileName f) = some (etagOf hash b) ∧
    (∃ g, (processFile cfg hash mimeT putOk st f).2.2 = FileOutcome.failed g) ∧
    (processFiles cfg hash mimeT putOk st (f :: fs)).2.2 =
      (processFile cfg hash mimeT putOk st f).2.2 ::
        (processFiles cfg hash mimeT putOk (processFile cfg hash mimeT putOk st f).1 fs).2.2 := by
  have hdiff' : ¬ getKey st.oldCache (metaOf cfg.setting.fileName f).path
      = some (etagOf hash b) := hdiff
  have hfail' : putOk (cfg.setting.dir ++ "/" ++ (metaOf cfg.setting.fileName f).path) b
      = false := hfail
  refine ⟨?_, ?_, rfl⟩
  · simp [processFile, hb, processBuffer, hdiff', hsim, hfail', normPathOf,
      getKey_objInsert_self]
  · refine ⟨{ f with oss := some ⟨fillHeaders mimeT f (metaOf cfg.setting.fileName f).headers b,
      (metaOf cfg.setting.fileName f).path, some "upload", some (etagOf hash b), true⟩ }, ?_⟩
    simp [processFile, hb, processBuffer, hdiff', hsim, hfail']

/-- Witness for C4: one concrete file whose upload fails, followed by
another file. -/
theorem claim_C4_optimistic_write_survives_put_failure_witness :
    (wFileA.contents = FContents.buffer [1] ∧ wCfg.setting.simulate = false ∧
      getKey wStEmpty.oldCache (normPathOf wCfg.setting.fileName wFileA)
        ≠ some (etagOf wHash [1]) ∧
      wPutFail (wCfg.setting.dir ++ "/" ++ normPathOf wCfg.setting.fileName wFileA) [1]
        = false) ∧
    (getKey (processFile wCfg wHash wMime wPutFail wStEmpty wFileA).1.newCache
        (normPathOf wCfg.setting.fileName wFileA) = some (etagOf wHash [1]) ∧
    (∃ g, (processFile wCfg wHash wMime wPutFail wStEmpty wFileA).2.2
        = FileOutcome.failed g) ∧
    (processFiles wCfg wHash wMime wPutFail wStEmpty [wFileA, wFileNull]).2.2 =
      (processFile wCfg wHash wMime wPutFail wStEmpty wFileA).2.2 ::
        (processFiles wCfg wHash wMime wPutFail
          (processFile wCfg wHash wMime wPutFail wStEmpty wFileA).1 [wFileNull]).2.2) :=
  ⟨⟨rfl, rfl, by decide, rfl⟩,
    claim_C4_optimistic_write_survives_put_failure wCfg wHash wMime wPutFail
      wStEmpty wFileA [wFileNull] [1] rfl rfl (by decide) rfl⟩

/-! ### Claim C10: the shared controls.headers bag accumulates -/

/-- Claim C10: on the upload path the merged headers — including the file's
Content-Type and Content-Length — are written back into the shared
`config.controls.headers`, so they form the merge base of every later
upload. -/
theorem claim_C10_controls_headers_accumulate
    (cfg : OssConfig) (hash : List Nat → String) (mimeT : String → Option String)
    (putOk : String → List Nat → Bool) (st : PubState) (f : VFile)
    (b : List Nat) (hs : Headers)
    (hctl : st.controls = some hs)
    (hb : f.contents = FContents.buffer b)
    (hoss : f.oss = none)
    (hsim : cfg.setting.simulate = false)
    (hdiff : getKey st.oldCache (normPathOf cfg.setting.fileName f) ≠ some (etagOf hash b)) :
    (processFile cfg hash mimeT putOk st f).1.controls
      = some (objAssign hs (fillHeaders mimeT f (metaOf cfg.setting.fileName f).headers b)) ∧
    hasKey (fillHeaders mimeT f (metaOf cfg.setting.fileName f).headers b)
      "Content-Type" = true ∧
    hasKey (fillHeaders mimeT f (metaOf cfg.setting.fileName f).headers b)
      "Content-Length" = true ∧
    (∀ k2 b2 h2, Effect.put k2 b2 h2 ∈ (processFile cfg hash mimeT putOk st f).2.1 →
      h2 = objAssign hs (fillHeaders mimeT f (metaOf cfg.setting.fileName f).headers b)) := by
  have hdiff' : ¬ getKey st.oldCache (metaOf cfg.setting.fileName f).path
      = some (etagOf hash b) := hdiff
  have hmeta : (metaOf cfg.setting.fileName f).headers = [] := by
    simp [metaOf, hoss]
  refine ⟨?_, ?_, ?_, ?_⟩
  · by_cases hok : putOk (cfg.setting.dir ++ "/" ++ (metaOf cfg.setting.fileName f).path) b <;>
      simp [processFile, hb, processBuffer, hdiff', hsim, hok, hctl]
  · rw [hmeta, fillHeaders_nil]
    simp [hasKey]
  · rw [hmeta, fillHeaders_nil]
    simp [hasKey]
  · intro k2 b2 h2 hmem
    have h := processBuffer_put_headers cfg hash mimeT putOk st f b hdiff' hsim k2 b2 h2
      (by simpa [processFile, hb] using hmem)
    rw [hctl] at h
    rwa [Option.getD_some] at h

/-- Witness for C10 at a concrete upload with empty default headers. -/
theorem claim_C10_controls_headers_accumulate_witness :
    (wStEmpty.controls = some [] ∧ wFileA.contents = FContents.buffer [1] ∧
      wFileA.oss = none ∧ wCfg.setting.simulate = false ∧
      getKey wStEmpty.oldCache (normPathOf wCfg.setting.fileName wFileA)
        ≠ some (etagOf wHash [1])) ∧
    ((processFile wCfg wHash wMime wPutOk wStEmpty wFileA).1.controls
      = some (objAssign [] (fillHeaders wMime wFileA (metaOf wCfg.setting.fileName wFileA).headers [1])) ∧
    hasKey (fillHeaders wMime wFileA (metaOf wCfg.setting.fileName wFileA).headers [1])
      "Content-Type" = true ∧
    hasKey (fillHeaders wMime wFileA (metaOf wCfg.setting.fileName wFileA).headers [1])
      "Content-Length" = true ∧
    (∀ k2 b2 h2, Effect.put k2 b2 h2 ∈ (processFile wCfg wHash wMime wPutOk wStEmpty wFileA).2.1 →
      h2 = objAssign [] (fillHeaders wMime wFileA (metaOf wCfg.setting.fileName wFileA).headers [1]))) :=
  ⟨⟨rfl, rfl, rfl, rfl, by decide⟩,
    claim_C10_controls_headers_accumulate wCfg wHash wMime wPutOk wStEmpty wFileA [1] []
      rfl rfl rfl rfl (by decide)⟩

/-! ### Claim C3: delete set and no-clean mode -/

theorem hasKey_iff_mem {α : Type} (m : JsObj α) (k : String) :
    hasKey m k = true ↔ k ∈ m.map Prod.fst := by
  simp [hasKey, List.any_eq_true, List.mem_map]

/-- Claim C3: at completion the new manifest is always persisted; the delete
candidates are exactly the keys in the old manifest and not in the new one;
a `deleteMulti` effect occurs exactly when cleaning is enabled and that set
is non-empty, and then carries the prefixed keys and the quiet flag. -/
theorem claim_C3_delete_set (cfg : OssConfig) (st : PubState) :
    Effect.saveCache st.newCache ∈ onFinish cfg st ∧
    (∀ p, p ∈ delPaths st ↔
      (hasKey st.oldCache p = true ∧ hasKey st.newCache p = false)) ∧
    (∀ ks q, Effect.deleteMulti ks q ∈ onFinish cfg st ↔
      (cfg.setting.noClean = false ∧ delPaths st ≠ [] ∧
        ks = (delPaths st).map (fun p => cfg.setting.dir ++ "/" ++ p) ∧
        q = cfg.setting.quiet)) := by
  refine ⟨by simp [onFinish], ?_, ?_⟩
  · intro p
    rw [delPaths, List.mem_filter, ← hasKey_iff_mem]
    simp
  · intro ks q
    cases hn : cfg.setting.noClean
    · by_cases hd : delPaths st = []
      · simp [onFinish, hn, hd]
      · have hlen : 0 < ((delPaths st).map (fun p => cfg.setting.dir ++ "/" ++ p)).length := by
          rw [List.length_map]
          exact List.length_pos.mpr hd
        simp [onFinish, hn, hd, hlen, and_assoc]
        intro _ _
        exact List.length_pos.mpr hd
    · simp [onFinish, hn]

/-! ### State-preservation and counting lemmas -/

theorem processFile_oldCache (cfg : OssConfig) (hash : List Nat → String)
    (mimeT : String → Option String) (putOk : String → List Nat → Bool)
    (st : PubState) (f : VFile) :
    (processFile cfg hash mimeT putOk st f).1.oldCache = st.oldCache := by
  cases hc : f.contents with
  | null => simp [processFile, hc]
  | stream => simp [processFile, hc]
  | buffer b =>
    by_cases h1 : getKey st.oldCache (metaOf cfg.setting.fileName f).path = some (etagOf hash b)
    · simp [processFile, hc, processBuffer, h1]
    · by_cases h2 : cfg.setting.simulate
      · simp [processFile, hc, processBuffer, h1, h2]
      · by_cases h3 : putOk (cfg.setting.dir ++ "/" ++ (metaOf cfg.setting.fileName f).path) b <;>
          simp [processFile, hc, processBuffer, h1, h2, h3]

theorem processFiles_oldCache (cfg : OssConfig) (hash : List Nat → String)
    (mimeT : String → Option String) (putOk : String → List Nat → Bool)
    (st : PubState) (fs : List VFile) :
    (processFiles cfg hash mimeT putOk st fs).1.oldCache = st.oldCache := by
  induction fs generalizing st with
  | nil => rfl
  | cons f fs ih =>
    have h : (processFiles cfg hash mimeT putOk st (f :: fs)).1
        = (processFiles cfg hash mimeT putOk (processFile cfg hash mimeT putOk st f).1 fs).1 := rfl
    rw [h, ih, processFile_oldCache]

theorem putCount_append (a b : List Effect) :
    putCount (a ++ b) = putCount a + putCount b := by
  simp [putCount, List.filter_append]

theorem onFinish_putCount (cfg : OssConfig) (st : PubState) :
    putCount (onFinish cfg st) = 0 := by
  cases hn : cfg.setting.noClean
  · by_cases hl : ((delPaths st).map (fun p => cfg.setting.dir ++ "/" ++ p)).length > 0 <;>
      simp [onFinish, hn, hl, putCount, isPut]
  · simp [onFinish, hn, putCount, isPut]

theorem processFile_putCount_of_empty (cfg : OssConfig) (hash : List Nat → String)
    (mimeT : String → Option String) (putOk : String → List Nat → Bool)
    (st : PubState) (f : VFile)
    (hold : st.oldCache = []) (hsim : cfg.setting.simulate = false) :
    putCount (processFile cfg hash mimeT putOk st f).2.1 = bufCount [f] := by
  cases hc : f.contents with
  | null => simp [processFile, hc, putCount, bufCount]
  | stream => simp [processFile, hc, putCount, isPut, bufCount]
  | buffer b =>
    have hdiff : ¬ getKey st.oldCache (metaOf cfg.setting.fileName f).path
        = some (etagOf hash b) := by
      rw [hold]
      simp [getKey]
    by_cases hok : putOk (cfg.setting.dir ++ "/" ++ (metaOf cfg.setting.fileName f).path) b
    · simp only [processFile, hc, processBuffer]
      rw [if_neg hdiff]
      simp only [hsim, Bool.false_eq_true, if_false, hok, if_true]
      simp [putCount, isPut, List.filter_append, bufCount]
      split <;> simp [isPut, List.filter_cons, hc]
    · simp [processFile, hc, processBuffer, hdiff, hsim, hok, putCount, isPut, bufCount]

theorem processFiles_putCount_of_empty (cfg : OssConfig) (hash : List Nat → String)
    (mimeT : String → Option String) (putOk : String → List Nat → Bool)
    (st : PubState) (fs : List VFile)
    (hold : st.oldCache = []) (hsim : cfg.setting.simulate = false) :
    putCount (processFiles cfg hash mimeT putOk st fs).2.1 = bufCount fs := by
  induction fs generalizing st with
  | nil => rfl
  | cons f fs ih =>
    have hsplit : (processFiles cfg hash mimeT putOk st (f :: fs)).2.1
        = (processFile cfg hash mimeT putOk st f).2.1 ++
            (processFiles cfg hash mimeT putOk (processFile cfg hash mimeT putOk st f).1 fs).2.1 := rfl
    have hold' : (processFile cfg hash mimeT putOk st f).1.oldCache = [] := by
      rw [processFile_oldCache]
      exact hold
    have hbc : bufCount (f :: fs) = bufCount [f] + bufCount fs := by
      cases hc : f.contents <;> (simp [bufCount, hc]; try omega)
    rw [hsplit, putCount_append, processFile_putCount_of_empty cfg hash mimeT putOk st f hold hsim,
      ih (processFile cfg hash mimeT putOk st f).1 hold', hbc]

/-! ### Claim C5 (corrected): force removes the cache first, uploads need simulate off -/

/-- Counterexample to claim C5 as stated: with `force=true` but also
`simulate=true`, a buffered file is processed yet no `put` call occurs. -/
theorem claim_C5_counterexample :
    wCfgFS.setting.force = true ∧
    wFileA.contents = FContents.buffer [1] ∧
    (runSync wCfgFS wHash wMime wPutOk none [wFileA]).map (fun r => putCount r.2.1)
      = some 0 := by
  decide

/-- Claim C5 as amended: with `force=true` the cache file is removed before
any file is processed (the unlink is the first effect of the run), and —
provided simulate mode is off — every buffered file triggers exactly one
`put` call regardless of prior manifest content. -/
theorem claim_C5_amended_force_unlinks_then_uploads
    (cfg : OssConfig) (hash : List Nat → String) (mimeT : String → Option String)
    (putOk : String → List Nat → Bool) (d : Option String) (files : List VFile)
    (r : PubState × List Effect × List FileOutcome)
    (hforce : cfg.setting.force = true)
    (hrun : runSync cfg hash mimeT putOk d files = some r) :
    r.2.1.head? = some Effect.unlinkCache ∧
    (cfg.setting.simulate = false → putCount r.2.1 = bufCount files) := by
  by_cases hb : cfg.bucket = ""
  · simp [runSync, mkPublisher, hb] at hrun
  · have hini : mkPublisher cfg d
        = some ({ newCache := [], oldCache := [], counter := 0, controls := cfg.controls },
                [Effect.unlinkCache]) := by
      simp [mkPublisher, hb, hforce]
    rw [runSync, hini] at hrun
    simp only [Option.map_some', Option.some.injEq] at hrun
    subst hrun
    constructor
    · rfl
    · intro hsim
      rw [putCount_append, putCount_append, onFinish_putCount,
        processFiles_putCount_of_empty cfg hash mimeT putOk _ files rfl hsim]
      simp [putCount, isPut]

/-- Witness for the amended C5 at a concrete force-mode run. -/
theorem claim_C5_amended_force_unlinks_then_uploads_witness :
    (wCfgForce.setting.force = true ∧
      runSync wCfgForce wHash wMime wPutOk none [wFileA] = some wRunForceRes) ∧
    (wRunForceRes.2.1.head? = some Effect.unlinkCache ∧
      (wCfgForce.setting.simulate = false → putCount wRunForceRes.2.1 = bufCount [wFileA])) :=
  ⟨⟨rfl, by decide⟩,
    claim_C5_amended_force_unlinks_then_uploads wCfgForce wHash wMime wPutOk none
      [wFileA] wRunForceRes rfl (by decide)⟩

/-! ### Claim C8: the old manifest is never mutated -/

/-- Claim C8: the old manifest loaded at construction is left untouched by
every per-file step (hence also by the ten-upload checkpointing they
perform) and by completion: the final state's old manifest is the one the
publisher was constructed with. -/
theorem claim_C8_old_manifest_immutable
    (cfg : OssConfig) (hash : List Nat → String) (mimeT : String → Option String)
    (putOk : String → List Nat → Bool) (d : Option String) (files : List VFile)
    (st0 : PubState) (ceffs : List Effect)
    (r : PubState × List Effect × List FileOutcome)
    (hmk : mkPublisher cfg d = some (st0, ceffs))
    (hrun : runSync cfg hash mimeT putOk d files = some r) :
    r.1.oldCache = st0.oldCache ∧
    ∀ st f, (processFile cfg hash mimeT putOk st f).1.oldCache = st.oldCache := by
  constructor
  · rw [runSync, hmk] at hrun
    simp only [Option.map_some', Option.some.injEq] at hrun
    subst hrun
    exact processFiles_oldCache cfg hash mimeT putOk st0 files
  · intro st f
    exact processFile_oldCache cfg hash mimeT putOk st f

/-- Witness for C8 at a concrete run. -/
theorem claim_C8_old_manifest_immutable_witness :
    (mkPublisher wCfg none = some (wStEmpty, []) ∧
      runSync wCfg wHash wMime wPutOk none [wFileA] = some wRunPlainRes) ∧
    (wRunPlainRes.1.oldCache = wStEmpty.oldCache ∧
      ∀ st f, (processFile wCfg wHash wMime wPutOk st f).1.oldCache = st.oldCache) :=
  ⟨⟨by decide, by decide⟩,
    claim_C8_old_manifest_immutable wCfg wHash wMime wPutOk none [wFileA]
      wStEmpty [] wRunPlainRes (by decide) (by decide)⟩

/-! ### Claim C9: cache-load failures silently yield an empty manifest -/

/-- Claim C9: when the cache file is absent or unreadable (`d = none`) or
its contents do not parse, construction still succeeds and the old manifest
is empty, so every file of the run is treated as new. -/
theorem claim_C9_load_failure_gives_empty
    (cfg : OssConfig) (d : Option String)
    (hbucket : cfg.bucket ≠ "")
    (hfail : d = none ∨ ∃ s, d = some s ∧ parseManifest s = none) :
    ∃ st0 effs, mkPublisher cfg d = some (st0, effs) ∧ st0.oldCache = [] := by
  by_cases hf : cfg.setting.force
  · refine ⟨{ newCache := [], oldCache := [], counter := 0, controls := cfg.controls },
      [Effect.unlinkCache], ?_, rfl⟩
    simp [mkPublisher, hbucket, hf]
  · refine ⟨{ newCache := [], oldCache := loadCache d, counter := 0, controls := cfg.controls },
      [], ?_, ?_⟩
    · simp [mkPublisher, hbucket, hf]
    · rcases hfail with h | ⟨s, hs, hp⟩
      · simp [h, loadCache]
      · simp [hs, loadCache, hp]

/-- Witness for C9 at an unparseable cache file. -/
theorem claim_C9_load_failure_gives_empty_witness :
    (wCfg.bucket ≠ "" ∧ parseManifest "not json" = none) ∧
    (∃ st0 effs, mkPublisher wCfg (some "not json") = some (st0, effs) ∧
      st0.oldCache = []) :=
  ⟨⟨by decide, by decide⟩,
    claim_C9_load_failure_gives_empty wCfg (some "not json") (by decide)
      (Or.inr ⟨"not json", rfl, by decide⟩)⟩

/-! ### Claim C7: manifest save/load round trip -/

theorem hexVal_hexDigitChar (n : Nat) (h : n < 16) :
    hexVal (hexDigitChar n) = some n := by
  interval_cases n <;> decide

theorem escList_length (cs : List Char) : cs.length ≤ (escList cs).length := by
  induction cs with
  | nil => simp [escList]
  | cons c cs ih =>
    have h : 1 ≤ (escapeChar c).length := by
      rw [escapeChar]
      split_ifs <;> simp
    simp only [escList, List.length_append, List.length_cons]
    omega

theorem parseStrBody_escList (cs : List Char) : ∀ (fuel : Nat) (rest : List Char),
    cs.length < fuel →
    parseStrBody fuel (escList cs ++ '"' :: rest) = some (cs, rest) := by
  induction cs with
  | nil =>
    intro fuel rest hf
    obtain ⟨f, rfl⟩ : ∃ g, fuel = g + 1 := by
      cases fuel with
      | zero => omega
      | succ g => exact ⟨g, rfl⟩
    simp [escList, parseStrBody]
  | cons c cs ih =>
    intro fuel rest hf
    obtain ⟨f, rfl⟩ : ∃ g, fuel = g + 1 := by
      cases fuel with
      | zero => omega
      | succ g => exact ⟨g, rfl⟩
    have ihf := fun rest => ih f rest (by simp at hf; omega)
    rw [escList, List.append_assoc]
    by_cases h1 : c = '"'
    · subst h1
      simp [escapeChar, parseStrBody, escCode, ihf]
    · by_cases h2 : c = '\\'
      · subst h2
        simp [escapeChar, parseStrBody, escCode, ihf]
      · by_cases h3 : c.toNat < 32
        · by_cases h8 : c.toNat = 8
          · have hc : Char.ofNat 8 = c := by
              rw [← h8]
              exact Char.ofNat_toNat c
            simp [escapeChar, h1, h2, h3, h8, parseStrBody, escCode, ihf, hc]
            exact hc
          · by_cases h9 : c.toNat = 9
            · have hc : Char.ofNat 9 = c := by
                rw [← h9]
                exact Char.ofNat_toNat c
              simp [escapeChar, h1, h2, h3, h8, h9, parseStrBody, escCode, ihf, hc]
              exact hc
            · by_cases h10 : c.toNat = 10
              · have hc : Char.ofNat 10 = c := by
                  rw [← h10]
                  exact Char.ofNat_toNat c
                simp [escapeChar, h1, h2, h3, h8, h9, h10, parseStrBody, escCode, ihf, hc]
                exact hc
              · by_cases h12 : c.toNat = 12
                · have hc : Char.ofNat 12 = c := by
                    rw [← h12]
                    exact Char.ofNat_toNat c
                  simp [escapeChar, h1, h2, h3, h8, h9, h10, h12, parseStrBody, escCode, ihf, hc]
                  exact hc
                · by_cases h13 : c.toNat = 13
                  · have hc : Char.ofNat 13 = c := by
                      rw [← h13]
                      exact Char.ofNat_toNat c
                    simp [escapeChar, h1, h2, h3, h8, h9, h10, h12, h13, parseStrBody,
                      escCode, ihf, hc]
                    exact hc
                  · have hxa : hexVal (hexDigitChar (c.toNat / 16)) = some (c.toNat / 16) :=
                      hexVal_hexDigitChar _ (by omega)
                    have hxb : hexVal (hexDigitChar (c.toNat % 16)) = some (c.toNat % 16) :=
                      hexVal_hexDigitChar _ (by omega)
                    have hn : hex4 0 0 (c.toNat / 16) (c.toNat % 16) = c.toNat := by
                      rw [hex4]
                      omega
                    have hval : Nat.isValidChar (hex4 0 0 (c.toNat / 16) (c.toNat % 16)) := by
                      rw [hn]
                      exact Or.inl (by omega)
                    have hc : Char.ofNat (hex4 0 0 (c.toNat / 16) (c.toNat % 16)) = c := by
                      rw [hn]
                      exact Char.ofNat_toNat c
                    have hx0 : hexVal '0' = some 0 := rfl
                    simp [escapeChar, h1, h2, h3, h8, h9, h10, h12, h13, parseStrBody,
                      hx0, hxa, hxb, hval, hc, ihf]
        · simp [escapeChar, h1, h2, h3, parseStrBody, ihf]

theorem parseJString_quote (s rest : List Char) :
    parseJString (quoteChars s ++ rest) = some (s, rest) := by
  have harr : quoteChars s ++ rest = '"' :: (escList s ++ '"' :: rest) := by
    simp [quoteChars]
  rw [harr]
  show parseStrBody ((escList s ++ '"' :: rest).length + 1) (escList s ++ '"' :: rest)
      = some (s, rest)
  apply parseStrBody_escList
  have h := escList_length s
  simp only [List.length_append, List.length_cons]
  omega

theorem hasKey_append {α : Type} (m n : JsObj α) (k : String) :
    hasKey (m ++ n) k = (hasKey m k || hasKey n k) := by
  simp [hasKey, List.any_append]

theorem objInsert_not_has {α : Type} (m : JsObj α) (k : String) (v : α)
    (h : hasKey m k = false) : objInsert m k v = m ++ [(k, v)] := by
  simp [objInsert, h]

theorem objInsertList_disjoint {α : Type} (ps : JsObj α) : ∀ (m : JsObj α),
    (∀ p ∈ ps, hasKey m p.1 = false) → (ps.map Prod.fst).Nodup →
    objInsertList m ps = m ++ ps := by
  induction ps with
  | nil =>
    intro m _ _
    simp [objInsertList]
  | cons p r ih =>
    intro m hdis hnd
    obtain ⟨k, v⟩ := p
    have hm : hasKey m k = false := hdis (k, v) (List.mem_cons_self _ _)
    have hnd' : (k :: r.map Prod.fst).Nodup := by simpa using hnd
    have hk : k ∉ r.map Prod.fst := (List.nodup_cons.mp hnd').1
    have step : objInsertList m ((k, v) :: r) = objInsertList (m ++ [(k, v)]) r := by
      simp [objInsertList, objInsert_not_has _ _ _ hm]
    rw [step, ih (m ++ [(k, v)]) ?_ ((List.nodup_cons.mp hnd').2)]
    · simp
    · intro q hq
      have h1 : hasKey m q.1 = false := hdis q (List.mem_cons_of_mem _ hq)
      have hqk : k ≠ q.1 := by
        intro he
        exact hk (he ▸ List.mem_map_of_mem Prod.fst hq)
      have h2 : hasKey [(k, v)] q.1 = false := by
        simp [hasKey, hqk]
      simp [hasKey_append, h1, h2]

theorem objInsertList_nil_nodup (m : Manifest) (h : (m.map Prod.fst).Nodup) :
    objInsertList [] m = m := by
  have := objInsertList_disjoint m [] (fun p _ => rfl) h
  simpa using this

theorem serMembers_length (m : Manifest) : m.length ≤ (serMembers m).length := by
  induction m with
  | nil => simp [serMembers]
  | cons p r ih =>
    obtain ⟨k, v⟩ := p
    cases r with
    | nil => simp [serMembers, quoteChars]
    | cons q r2 =>
      have h := ih
      simp [serMembers, quoteChars] at h ⊢
      omega

theorem parseMembers_serMembers (m : Manifest) : ∀ (fuel : Nat) (acc : Manifest)
    (rest : List Char), m ≠ [] → m.length ≤ fuel →
    parseMembers fuel (serMembers m ++ '}' :: rest) acc
      = some (objInsertList acc m, rest) := by
  induction m with
  | nil =>
    intro _ _ _ h _
    exact absurd rfl h
  | cons p r ih =>
    intro fuel acc rest _ hf
    obtain ⟨k, v⟩ := p
    obtain ⟨fuel, rfl⟩ : ∃ g, fuel = g + 1 := by
      cases fuel with
      | zero => simp at hf
      | succ g => exact ⟨g, rfl⟩
    cases r with
    | nil =>
      have harr : (quoteChars k.data ++ ':' :: quoteChars v.data) ++ '}' :: rest
          = quoteChars k.data ++ (':' :: (quoteChars v.data ++ '}' :: rest)) := by
        simp
      cases k with
      | mk kd =>
        cases v with
        | mk vd =>
          simp [serMembers, harr, parseMembers, parseJString_quote, objInsertList]
    | cons q r2 =>
      have harr : (quoteChars k.data ++ ':' :: (quoteChars v.data ++ ',' :: serMembers (q :: r2)))
            ++ '}' :: rest
          = quoteChars k.data ++ (':' :: (quoteChars v.data
              ++ ',' :: (serMembers (q :: r2) ++ '}' :: rest))) := by
        simp
      have hlen : (q :: r2).length ≤ fuel := by
        simp at hf
        simpa using hf
      cases k with
      | mk kd =>
        cases v with
        | mk vd =>
          simp only [serMembers, List.cons_append, List.append_assoc]
          simp only [parseMembers, parseJString_quote]
          rw [ih fuel (objInsert acc (String.mk kd) (String.mk vd)) rest
            (by simp) hlen]
          simp [objInsertList]

theorem parseManifest_serialize (m : Manifest) :
    parseManifest (serializeManifest m) = some (objInsertList [] m) := by
  cases m with
  | nil => rfl
  | cons p r =>
    have hsl := serMembers_length (p :: r)
    have hcons : (p :: r).length = r.length + 1 := by simp
    have hne : ¬ (serMembers (p :: r) ++ ['}'] = ['}']) := by
      intro he
      have hl := congrArg List.length he
      simp only [List.length_append, List.length_cons, List.length_nil] at hl
      omega
    show parseManifestChars ('{' :: (serMembers (p :: r) ++ ['}'])) = _
    simp only [parseManifestChars]
    rw [if_neg hne]
    rw [show serMembers (p :: r) ++ ['}'] = serMembers (p :: r) ++ '}' :: [] from rfl,
      parseMembers_serMembers (p :: r) ((serMembers (p :: r) ++ '}' :: []).length) [] []
        (by simp)
        (by simp only [List.length_append, List.length_cons, List.length_nil]; omega)]

/-- Claim C7: saving any manifest (a finite mapping, so its keys are
distinct) and loading it back through the JSON store yields an equal
mapping. -/
theorem claim_C7_save_load_roundtrip (m : Manifest) (h : (m.map Prod.fst).Nodup) :
    loadCache (some (serializeManifest m)) = m := by
  simp [loadCache, parseManifest_serialize, objInsertList_nil_nodup m h]

/-- Witness for C7 at a concrete one-entry manifest with a quoted
fingerprint. -/
theorem claim_C7_save_load_roundtrip_witness :
    (([("a/b.png", "\"3858f\"")].map (Prod.fst)).Nodup) ∧
    loadCache (some (serializeManifest [("a/b.png", "\"3858f\"")]))
      = [("a/b.png", "\"3858f\"")] :=
  ⟨by decide, claim_C7_save_load_roundtrip [("a/b.png", "\"3858f\"")] (by decide)⟩

end GulpOssSync
